import Mathlib

/-!
Verification development for the TRQuant stock-pool GUI panels
(`src/gui/widgets/stock_pool_panel.py`, `src/gui/widgets/factor_filter_tab.py`).

The Python record dictionaries are embedded as Lean structures; Python floats
are embedded as rationals (all comparisons the code performs are at exact
decimal thresholds), Python ints as integers, and Python's stable `list.sort`
as `List.insertionSort` with the non-strict key order, which is stable in the
same sense.  External data sources (AKShare / JQData / MongoDB rows) appear as
explicit inputs; a worker body wrapped in `try/except` becomes a function on
`Except String input`, the `.error` case being an exception raised by the
external call.
-/

namespace TRQuant

/-- One stock record, mirroring the dictionaries built throughout
`stock_pool_panel.py` (`code`, `name`, `source`, `data_source`, `period`,
`priority`, `mainline_score`, `change_pct`, `entry_reason`, `sector`). -/
structure Stock where
  code : String
  name : String
  source : String
  data_source : String
  period : String
  priority : ℤ
  mainline_score : ℚ
  change_pct : ℚ
  entry_reason : String
  sector : String
deriving DecidableEq, Repr

/-- The identity key of §3 of the spec: `code` if non-empty, else `name`. -/
def identKey (s : Stock) : String :=
  if s.code ≠ "" then s.code else s.name

/-- First-seen-wins deduplication over a key function, with the `seen` set
threaded as an accumulator.  Mirrors the `seen = set()` loops at
`stock_pool_panel.py:487-493` and `stock_pool_panel.py:1142-1151`: a record is
kept iff its key is non-empty and not seen yet. -/
def dedupByKey (k : Stock → String) : List Stock → List String → List Stock
  | [], _ => []
  | s :: rest, seen =>
    if k s ≠ "" ∧ k s ∉ seen then s :: dedupByKey k rest (k s :: seen)
    else dedupByKey k rest seen

/-- Sort key order of `MainlineScanWorker._deduplicate_and_sort`
(`stock_pool_panel.py:496`): ascending `priority`, then descending
`mainline_score`, then descending `change_pct`. -/
def mainlineSortLe (a b : Stock) : Prop :=
  a.priority < b.priority ∨
    (a.priority = b.priority ∧
      (b.mainline_score < a.mainline_score ∨
        (a.mainline_score = b.mainline_score ∧ b.change_pct ≤ a.change_pct)))

/-- Sort key order of the overview merge
(`stock_pool_panel.py:1153`): ascending `priority`, then descending
`mainline_score`. -/
def overviewSortLe (a b : Stock) : Prop :=
  a.priority < b.priority ∨
    (a.priority = b.priority ∧ b.mainline_score ≤ a.mainline_score)

instance : DecidableRel mainlineSortLe := fun a b => by
  unfold mainlineSortLe; infer_instance

instance : DecidableRel overviewSortLe := fun a b => by
  unfold overviewSortLe; infer_instance

instance : IsTotal Stock mainlineSortLe := by
  constructor
  intro a b
  unfold mainlineSortLe
  rcases lt_trichotomy a.priority b.priority with h | h | h
  · exact Or.inl (Or.inl h)
  · rcases lt_trichotomy a.mainline_score b.mainline_score with h2 | h2 | h2
    · exact Or.inr (Or.inr ⟨h.symm, Or.inl h2⟩)
    · rcases le_total b.change_pct a.change_pct with h3 | h3
      · exact Or.inl (Or.inr ⟨h, Or.inr ⟨h2, h3⟩⟩)
      · exact Or.inr (Or.inr ⟨h.symm, Or.inr ⟨h2.symm, h3⟩⟩)
    · exact Or.inl (Or.inr ⟨h, Or.inl h2⟩)
  · exact Or.inr (Or.inl h)

instance : IsTrans Stock mainlineSortLe := by
  constructor
  intro a b c hab hbc
  unfold mainlineSortLe at *
  rcases hab with h1 | ⟨e1, h1⟩
  · rcases hbc with h2 | ⟨e2, _⟩
    · exact Or.inl (h1.trans h2)
    · exact Or.inl (h1.trans_eq e2)
  · rcases hbc with h2 | ⟨e2, h2⟩
    · exact Or.inl (e1.trans_lt h2)
    · refine Or.inr ⟨e1.trans e2, ?_⟩
      rcases h1 with h1 | ⟨f1, h1⟩
      · rcases h2 with h2 | ⟨f2, _⟩
        · exact Or.inl (h2.trans h1)
        · exact Or.inl (f2.symm.trans_lt h1)
      · rcases h2 with h2 | ⟨f2, h2⟩
        · exact Or.inl (h2.trans_eq f1.symm)
        · exact Or.inr ⟨f1.trans f2, h2.trans h1⟩

instance : IsTotal Stock overviewSortLe := by
  constructor
  intro a b
  unfold overviewSortLe
  rcases lt_trichotomy a.priority b.priority with h | h | h
  · exact Or.inl (Or.inl h)
  · rcases le_total b.mainline_score a.mainline_score with h2 | h2
    · exact Or.inl (Or.inr ⟨h, h2⟩)
    · exact Or.inr (Or.inr ⟨h.symm, h2⟩)
  · exact Or.inr (Or.inl h)

instance : IsTrans Stock overviewSortLe := by
  constructor
  intro a b c hab hbc
  unfold overviewSortLe at *
  rcases hab with h1 | ⟨e1, h1⟩
  · rcases hbc with h2 | ⟨e2, _⟩
    · exact Or.inl (h1.trans h2)
    · exact Or.inl (h1.trans_eq e2)
  · rcases hbc with h2 | ⟨e2, h2⟩
    · exact Or.inl (e1.trans_lt h2)
    · exact Or.inr ⟨e1.trans e2, h2.trans h1⟩

/-- Embeds `MainlineScanWorker._deduplicate_and_sort` (`stock_pool_panel.py:485-497`):
keep the first record for each non-empty `code` (records with empty `code` are
dropped), stable-sort by `(priority, -mainline_score, -change_pct)` and keep
the first 30. -/
def deduplicate_and_sort (stocks : List Stock) : List Stock :=
  (List.insertionSort mainlineSortLe (dedupByKey (fun s => s.code) stocks [])).take 30

/-- The deduplication stage of `StockPoolPanel._on_overview_external_done`
(`stock_pool_panel.py:1142-1151`): key is `code` if non-empty else `name`,
first-seen wins, records whose key is empty are dropped. -/
def overviewDedup (stocks : List Stock) : List Stock :=
  dedupByKey identKey stocks []

/-- The merged overview list as displayed
(`stock_pool_panel.py:1153-1159`): dedup, stable-sort by
`(priority, -mainline_score)`, display the first 50 rows. -/
def overviewMerge (stocks : List Stock) : List Stock :=
  (List.insertionSort overviewSortLe (overviewDedup stocks)).take 50

/-! Section: Mock fallback data (`stock_pool_panel.py:41-73`) -/

/-- Embeds `get_mock_mainline_stocks` (`stock_pool_panel.py:41-53`). -/
def get_mock_mainline_stocks : List Stock :=
  [⟨"002230", "科大讯飞", "mainline", "模拟", "medium", 1, 88.5, 5.2, "🏆 主线龙头：人工智能", "人工智能"⟩,
   ⟨"300750", "宁德时代", "mainline", "模拟", "medium", 1, 85.3, 3.8, "🏆 主线龙头：新能源", "新能源"⟩,
   ⟨"688981", "中芯国际", "mainline", "模拟", "medium", 1, 82.1, 4.5, "🏆 主线龙头：半导体", "半导体"⟩,
   ⟨"600760", "中航沈飞", "mainline", "模拟", "medium", 1, 80.7, 6.1, "🏆 主线龙头：军工", "军工"⟩,
   ⟨"601012", "隆基绿能", "mainline", "模拟", "medium", 1, 78.9, 2.9, "🏆 主线龙头：光伏", "光伏"⟩]

/-- Embeds `get_mock_tech_stocks` (`stock_pool_panel.py:55-61`). -/
def get_mock_tech_stocks : List Stock :=
  [⟨"300750", "宁德时代", "tech_breakout", "模拟", "short", 2, 0, 9.98, "📈 技术突破：涨停, 放量3倍+", ""⟩,
   ⟨"002594", "比亚迪", "tech_breakout", "模拟", "short", 2, 0, 9.95, "📈 技术突破：涨停, 放量2倍+", ""⟩]

/-- One ETF record as built by `ETFScanWorker`; `ty` embeds the `"type"` key
and `index` the `"index"` key. -/
structure Etf where
  code : String
  name : String
  ty : String
  price : ℚ
  change_5d : ℚ
  amount : ℚ
  index : String
deriving DecidableEq, Repr

/-- Embeds `get_mock_etfs` (`stock_pool_panel.py:63-67`). -/
def get_mock_etfs : List Etf :=
  [⟨"159915", "创业板ETF", "宽基ETF", 2.35, 8.5, 125.6, "创业板指"⟩,
   ⟨"512480", "半导体ETF", "主题ETF", 1.28, 12.5, 85.2, "半导体"⟩]

/-- Embeds `get_mock_external_stocks` (`stock_pool_panel.py:69-73`). -/
def get_mock_external_stocks : List Stock :=
  [⟨"600519", "贵州茅台", "broker", "示例", "medium", 3, 0, 0, "中信证券月度金股", ""⟩]

/-! Section: Technical breakout scan (`TechScanWorker.run`, `stock_pool_panel.py:524-626`) -/

/-- One full-market snapshot row as consumed by `TechScanWorker.run`:
名称 `name`, 代码 `code`, 涨跌幅 `change`, 量比 `vr`, 换手率 `turnover`, and the
raw 总市值 `total_cap` (divided by 1e8 by the scan). -/
structure Row where
  name : String
  code : String
  change : ℚ
  vr : ℚ
  turnover : ℚ
  total_cap : ℚ
deriving DecidableEq, Repr

/-- Whether a character list starts with the two characters `S`, `T`. -/
def stAtHead : List Char → Bool
  | 'S' :: 'T' :: _ => true
  | _ => false

/-- Python's `"ST" in name` substring test (`stock_pool_panel.py:562`). -/
def containsSTChars : List Char → Bool
  | [] => false
  | c :: t => stAtHead (c :: t) || containsSTChars t

/-- Python's `"ST" in name` on a `String`. -/
def hasST (s : String) : Bool :=
  containsSTChars s.data

/-- The additively accumulated technical score
(`stock_pool_panel.py:574-597`). -/
def techScore (change vr turnover : ℚ) : ℕ :=
  (if 9.9 ≤ change then 40 else if 7 ≤ change then 25 else if 5 ≤ change then 15 else 0) +
  (if 3 ≤ vr then 25 else if 2 ≤ vr then 15 else 0) +
  (if 5 ≤ turnover ∧ turnover ≤ 15 then 10 else 0)

/-- The signal tags collected into `signals`
(`stock_pool_panel.py:575-597`); the numeric interpolation inside the tag
strings (e.g. `大涨7.3%`) is abstracted to the bare tag, as no claim reads the
reason text. -/
def techSignalTags (change vr turnover : ℚ) : List String :=
  (if 9.9 ≤ change then ["涨停"] else if 7 ≤ change then ["大涨"]
   else if 5 ≤ change then ["涨"] else []) ++
  (if 3 ≤ vr then ["放量3倍+"] else if 2 ≤ vr then ["放量2倍+"] else []) ++
  (if 5 ≤ turnover ∧ turnover ≤ 15 then ["活跃换手"] else [])

/-- Per-row acceptance of `TechScanWorker.run` (`stock_pool_panel.py:553-613`):
skip empty name/code and ST names, require market cap (in 1e8 units) within
[30, 5000], and keep the row iff `signals` is non-empty and the score is at
least 25.  Returns the built record together with its `_score`. -/
def techAccept (period : String) (r : Row) : Option (Stock × ℕ) :=
  if r.name = "" ∨ r.code = "" then none
  else if hasST r.name then none
  else
    let mcap : ℚ := r.total_cap / 100000000
    if mcap < 30 ∨ 5000 < mcap then none
    else
      let score := techScore r.change r.vr r.turnover
      if techSignalTags r.change r.vr r.turnover ≠ [] ∧ 25 ≤ score then
        some (⟨r.code, r.name, "tech_breakout", "AKShare实时行情", period,
               if 50 ≤ score then 2 else 3, 0, r.change,
               "📈 技术突破：" ++ String.intercalate ", " (techSignalTags r.change r.vr r.turnover),
               ""⟩, score)
      else none

/-- Descending-by-`_score` order used at `stock_pool_panel.py:616` (Python
`sort(..., reverse=True)` is stable, matching stable insertion sort on the
non-strict order). -/
def techScoreGe (a b : Stock × ℕ) : Prop := b.2 ≤ a.2

instance : DecidableRel techScoreGe := fun a b => by
  unfold techScoreGe; infer_instance

instance : IsTotal (Stock × ℕ) techScoreGe :=
  ⟨fun a b => (le_total b.2 a.2).imp id id⟩

instance : IsTrans (Stock × ℕ) techScoreGe :=
  ⟨fun _ _ _ h1 h2 => le_trans h2 h1⟩

/-- The filtered rows of `TechScanWorker.run` sorted descending by `_score`
and truncated to 20 (`stock_pool_panel.py:552-617`), still carrying the
score. -/
def techRanked (period : String) (rows : List Row) : List (Stock × ℕ) :=
  (List.insertionSort techScoreGe (rows.filterMap (techAccept period))).take 20

/-- The whole technical scan on a non-empty snapshot
(`stock_pool_panel.py:552-617`): filter rows, sort descending by `_score`,
keep the first 20.  The `_score` entry rides along in the emitted dictionaries
but is never read downstream, so the emitted list is the `Stock` components. -/
def techScan (period : String) (rows : List Row) : List Stock :=
  (techRanked period rows).map Prod.fst

/-- Embeds `TechScanWorker.run` as a function of the outcome of the external
snapshot call (`stock_pool_panel.py:524-626`): an exception anywhere, or an
empty/missing snapshot, is masked by the mock dataset. -/
def techRunSafe (period : String) : Except String (List Row) → List Stock × String
  | .error _ => (get_mock_tech_stocks, "模拟数据")
  | .ok rows =>
    if rows.isEmpty then (get_mock_tech_stocks, "模拟数据")
    else (techScan period rows, "AKShare实时行情")

/-! Section: Mainline scan (`MainlineScanWorker`, `stock_pool_panel.py:80-497`) -/

/-- One mapped-mainline record as read from the document store
(`stock_pool_panel.py:141-161`). -/
structure Mainline where
  name : String
  jqdata_code : String
  jqdata_name : String
  jqdata_type : String
  total_score : ℚ
  leader_stock : String
  leader_change : ℚ
  jqdata_mapped : Bool
deriving DecidableEq, Repr

/-- One constituent with its resolved display name and realtime change, i.e.
the data `_filter_strong_stocks_jqdata` obtains for each fetched constituent
through its JQData/AKShare lookups (`stock_pool_panel.py:365-389`); the lookup
fallback chain itself is external and enters here as resolved values. -/
structure Constituent where
  code : String
  name : String
  change_pct : ℚ
deriving DecidableEq, Repr

/-- Embeds `MainlineScanWorker._create_leader_stock` (`stock_pool_panel.py:343-356`):
note the `code` field is the empty string. -/
def create_leader_stock (period leader_name mainline_name : String)
    (score change : ℚ) : Stock :=
  ⟨"", leader_name, "mainline", "龙头股", period, 1, score, change,
   "🏆 主线龙头：" ++ mainline_name, mainline_name⟩

/-- Descending-by-`change_pct` order used at `stock_pool_panel.py:407`. -/
def changeGe (a b : Stock) : Prop := b.change_pct ≤ a.change_pct

instance : DecidableRel changeGe := fun a b => by
  unfold changeGe; infer_instance

/-- Embeds `MainlineScanWorker._filter_strong_stocks_jqdata`
(`stock_pool_panel.py:358-408`): keep constituents with `change_pct > -5` or
theme score ≥ 70, build the records, sort descending by change. -/
def filter_strong_stocks (period : String) (cs : List Constituent)
    (score : ℚ) (sector_name : String) : List Stock :=
  List.insertionSort changeGe (cs.filterMap fun c =>
    if -5 < c.change_pct ∨ 70 ≤ score then
      some ⟨c.code, c.name, "mainline", "JQData+AKShare", period, 2, score,
            c.change_pct, "📈 主线成分股：" ++ sector_name, sector_name⟩
    else none)

/-- The per-mainline stock list of Step 3 of `MainlineScanWorker.run`
(`stock_pool_panel.py:151-188`): the leader record whenever `leader_stock` is
non-empty, then — if the theme has a JQData code and score ≥ 60 — the strong
constituents (fetched list capped at 50 by `_get_stocks_from_jqdata`), with
any record named like the leader removed, capped at `maxPer`. -/
def mainlineStocksOf (period : String) (maxPer : ℕ)
    (env : String → List Constituent) (m : Mainline) : List Stock :=
  (if m.leader_stock ≠ "" then
    [create_leader_stock period m.leader_stock m.name m.total_score m.leader_change]
   else []) ++
  (if m.jqdata_code ≠ "" ∧ 60 ≤ m.total_score then
    ((filter_strong_stocks period ((env m.jqdata_code).take 50) m.total_score m.name).filter
      (fun s => s.name ≠ m.leader_stock)).take maxPer
   else [])

/-- Steps 3 of `MainlineScanWorker.run`: the accumulated `all_stocks` over the
first `maxMainlines` successfully-mapped mainlines (`stock_pool_panel.py:141-188`). -/
def mainlineCollect (period : String) (maxMainlines maxPer : ℕ)
    (env : String → List Constituent) (ms : List Mainline) : List Stock :=
  (((ms.filter fun m => m.jqdata_mapped || m.jqdata_code ≠ "").take maxMainlines).map
    (mainlineStocksOf period maxPer env)).flatten

/-- Steps 3–4 of `MainlineScanWorker.run`: collect, then
`_deduplicate_and_sort` (`stock_pool_panel.py:190-192`). -/
def mainlineScan (period : String) (maxMainlines maxPer : ℕ)
    (env : String → List Constituent) (ms : List Mainline) : List Stock :=
  deduplicate_and_sort (mainlineCollect period maxMainlines maxPer env ms)

/-- The inputs of one `MainlineScanWorker.run` invocation: JQData
initialisation outcome, the mapped mainlines, the constructor parameters
(defaults `period="medium"`, `max_mainlines=10`, `max_stocks_per_mainline=5`)
and the constituent environment. -/
structure MainlineInput where
  jqdataOk : Bool
  mainlines : List Mainline
  maxMainlines : ℕ
  maxPerMainline : ℕ
  period : String
  env : String → List Constituent

/-- Embeds `MainlineScanWorker.run` as a function of the external outcome
(`stock_pool_panel.py:109-202`): every failure path emits a mock dataset. -/
def mainlineRunSafe : Except String MainlineInput → List Stock × String
  | .error _ => (get_mock_mainline_stocks, "模拟数据（异常）")
  | .ok inp =>
    if !inp.jqdataOk then (get_mock_mainline_stocks, "模拟数据（JQData不可用）")
    else if inp.mainlines.isEmpty then (get_mock_mainline_stocks, "模拟数据")
    else if (inp.mainlines.filter fun m => m.jqdata_mapped || m.jqdata_code ≠ "").isEmpty then
      (get_mock_mainline_stocks, "模拟数据")
    else
      (mainlineScan inp.period inp.maxMainlines inp.maxPerMainline inp.env inp.mainlines,
       "MongoDB主线 + JQData成分股")

/-! Section: ETF scan and external parse workers (`stock_pool_panel.py:632-717`) -/

/-- One row of the ETF spot table: 代码, 名称, 市场, 最新价, 涨跌幅, raw 成交额. -/
structure EtfRow where
  code : String
  name : String
  market : String
  price : ℚ
  change : ℚ
  amount_raw : ℚ
deriving DecidableEq, Repr

/-- Descending-by-涨跌幅 order of `df.sort_values('涨跌幅', ascending=False)`
(`stock_pool_panel.py:652`). -/
def etfChangeGe (a b : EtfRow) : Prop := b.change ≤ a.change

instance : DecidableRel etfChangeGe := fun a b => by
  unfold etfChangeGe; infer_instance

/-- Embeds the `ETFScanWorker.run` filtering on a non-empty table
(`stock_pool_panel.py:652-668`): sort descending by change, take the top 30,
drop rows whose turnover amount (in 1e8 units) is below 1. -/
def etfScan (rows : List EtfRow) : List Etf :=
  ((List.insertionSort etfChangeGe rows).take 30).filterMap fun r =>
    if r.amount_raw / 100000000 < 1 then none
    else some ⟨r.code, r.name, "ETF", r.price, r.change, r.amount_raw / 100000000, r.market⟩

/-- Embeds `ETFScanWorker.run` as a function of the external outcome
(`stock_pool_panel.py:637-675`). -/
def etfRunSafe : Except String (List EtfRow) → List Etf × String
  | .error _ => (get_mock_etfs, "模拟数据")
  | .ok rows =>
    if rows.isEmpty then (get_mock_etfs, "模拟数据")
    else ((etfScan rows).take 20, "AKShare ETF数据")

/-- One stock of the external parser's pool (`stock_pool_panel.py:697-709`). -/
structure ExtStock where
  code : String
  name : String
  source : String
  period : String
  priority : ℤ
  entry_reason : String
deriving DecidableEq, Repr

/-- The record conversion of `ExternalParseWorker.run`
(`stock_pool_panel.py:697-709`). -/
def externalConvert (xs : List ExtStock) : List Stock :=
  xs.map fun x =>
    ⟨x.code, x.name, x.source, "外部文件", x.period, x.priority, 0, 0, x.entry_reason, ""⟩

/-- Embeds `ExternalParseWorker.run` as a function of the external outcome
(`stock_pool_panel.py:687-717`): an exception or an empty pool falls through
to the sample dataset. -/
def externalRunSafe : Except String (List ExtStock) → List Stock × String
  | .error _ => (get_mock_external_stocks, "示例数据")
  | .ok xs =>
    if xs.isEmpty then (get_mock_external_stocks, "示例数据")
    else (externalConvert xs, "外部数据文件")

/-! Section: Factor filter worker (`factor_filter_tab.py:148-272`) -/

/-- One result record of `FactorFilterWorker` (the simplified-mode dicts of
`factor_filter_tab.py:257-264`; integration-mode `StockSignal` objects are
abstracted to the same shape). -/
structure FactorResult where
  code : String
  mainline : String
  mainline_score : ℚ
deriving DecidableEq, Repr

/-- What `FactorFilterWorker.run` delivers to its caller: either the
`finished` signal with result records, or the `error` signal carrying the
failure message (`factor_filter_tab.py:151-152`). -/
inductive FactorEmission where
  | finished (results : List FactorResult)
  | errorSig (msg : String)
deriving DecidableEq, Repr

/-- One candidate mainline as passed to `FactorFilterWorker`
(`factor_filter_tab.py:115-129`). -/
structure FFMainline where
  mainline : String
  jq_code : String
  mainline_score : ℚ
deriving DecidableEq, Repr

/-- The environment of one `FactorFilterWorker.run` invocation: the candidate
mainlines, the per-code constituent fetch (`none` = that call raised and was
caught at `factor_filter_tab.py:201-202`), and the external factor-scoring
collaborator, abstracted as a function. -/
structure FFEnv where
  mainlines : List FFMainline
  fetch : String → Option (List String)
  integrationAvailable : Bool
  top_n : ℕ
  integrate : List String → List FactorResult

/-- The constituents actually recorded for a `jq_code`
(`factor_filter_tab.py:192-204`): empty code is never queried, a failed or
empty fetch stores nothing, a successful fetch is capped at 20. -/
def ffFetched (env : FFEnv) (jq : String) : List String :=
  if jq = "" then []
  else match env.fetch jq with
    | none => []
    | some l => if l.isEmpty then [] else l.take 20

/-- First-seen-wins deduplication by code of the `(code, mainline, score)`
entries, mirroring the `stock_mainline_map` / `all_stock_codes` loop
(`factor_filter_tab.py:207-223`). -/
def dedupEntries : List (String × String × ℚ) → List String → List (String × String × ℚ)
  | [], _ => []
  | e :: rest, seen =>
    if e.1 ∈ seen then dedupEntries rest seen
    else e :: dedupEntries rest (e.1 :: seen)

/-- The flattened `(code, mainline, score)` stream before deduplication
(`factor_filter_tab.py:210-223`). -/
def ffEntries (env : FFEnv) : List (String × String × ℚ) :=
  (env.mainlines.map fun ml =>
    (ffFetched env ml.jq_code).map fun c => (c, ml.mainline, ml.mainline_score)).flatten

/-- Embeds `FactorFilterWorker.run` as a function of the external outcome
(`factor_filter_tab.py:162-272`): an exception is reported through the
`error` signal (handled programmatically by `FactorFilterTab._on_error`),
as is an empty collection; no mock data is substituted. -/
def factorFilterRun : Except String FFEnv → FactorEmission
  | .error e => .errorSig e
  | .ok env =>
    let entries := dedupEntries (ffEntries env) []
    if entries.isEmpty then .errorSig "未获取到任何股票"
    else if env.integrationAvailable then
      .finished (env.integrate ((entries.map Prod.fst).take 100))
    else
      .finished ((entries.take env.top_n).map fun e => ⟨e.1, e.2.1, e.2.2⟩)

/-! Section: Strategy code generation (`StockPoolPanel._generate_code`,
`stock_pool_panel.py:1402-1448`) -/

/-- First-seen-wins deduplication of plain strings.  The Python code collects
the table texts into a `set` whose iteration order is unspecified; the
embedding fixes insertion order, and every property stated about the result
(no duplicates, cardinality bound, membership) is order-independent. -/
def dedupStr : List String → List String → List String
  | [], _ => []
  | c :: rest, seen =>
    if c ∈ seen then dedupStr rest seen
    else c :: dedupStr rest (c :: seen)

/-- Embeds `StockPoolPanel._generate_code` (`stock_pool_panel.py:1402-1448`), with
the three tables' code columns as input: `none` means the early return with no
file written; `some l` means the strategy script embedding the literal list
`l` is written.  The fixed template text and the date-stamped output path are
I/O and carry no further logic. -/
def generateCode (tables : List (List String)) : Option (List String) :=
  let codes := dedupStr tables.flatten []
  if codes.isEmpty then none else some (codes.take 20)

/-! Section: Sequential overview-scan chaining (`stock_pool_panel.py:1064-1165`) -/

/-- The four background scans of a full overview scan. -/
inductive ScanPhase where
  | mainline
  | tech
  | etf
  | external
deriving DecidableEq, Repr

/-- Which scan each completion handler starts:
`_on_overview_mainline_done` → `_start_tech_scan`,
`_on_overview_tech_done` → `_start_etf_scan`,
`_on_overview_etf_done` → `_start_external_scan`,
`_on_overview_external_done` starts nothing
(`stock_pool_panel.py:1073-1165`). -/
def nextScan : ScanPhase → Option ScanPhase
  | .mainline => some .tech
  | .tech => some .etf
  | .etf => some .external
  | .external => none

/-- The scan-chain state: the worker currently running (at most one, matching
the single-threaded queued signal delivery) and the start history. -/
structure OverviewState where
  running : Option ScanPhase
  started : List ScanPhase
deriving DecidableEq, Repr

/-- Starting a worker (`_start_*_scan`). -/
def startScan (st : OverviewState) (p : ScanPhase) : OverviewState :=
  ⟨some p, st.started ++ [p]⟩

/-- Embeds `_do_scan_all` (`stock_pool_panel.py:985-994`): the chain begins with the
mainline scan. -/
def doScanAll : OverviewState :=
  startScan ⟨none, []⟩ .mainline

/-- Delivery of the `finished` signal of worker `p`: the completion handler
runs and, if the chain continues, starts exactly the designated next scan;
a stray completion of a non-running worker changes nothing. -/
def onFinished (st : OverviewState) (p : ScanPhase) : OverviewState :=
  if st.running = some p then
    match nextScan p with
    | some q => startScan ⟨none, st.started⟩ q
    | none => ⟨none, st.started⟩
  else st

/-- Processing a queue of completion events in order. -/
def runEvents : OverviewState → List ScanPhase → OverviewState
  | st, [] => st
  | st, p :: ps => runEvents (onFinished st p) ps

/-! Section: Concrete inputs used by counterexamples and witnesses -/

/-- A leader record as `_create_leader_stock` builds them: empty `code`,
non-empty `name`. -/
def ghostLeader : Stock :=
  ⟨"", "龙头甲", "mainline", "龙头股", "medium", 1, 80, 3, "🏆 主线龙头：主题", "主题"⟩

/-- Two constituent records agreeing on `(priority, mainline_score)` but
differing in `change_pct`. -/
def stockA : Stock :=
  ⟨"600001", "甲", "mainline", "JQData+AKShare", "medium", 2, 50, 1, "📈 主线成分股：主题", "主题"⟩

def stockB : Stock :=
  ⟨"600002", "乙", "mainline", "JQData+AKShare", "medium", 2, 50, 2, "📈 主线成分股：主题", "主题"⟩

/-- An external record with empty `code` and non-empty `name`. -/
def namedOnly : Stock :=
  ⟨"", "外部甲", "external", "外部文件", "medium", 3, 0, 0, "中信证券月度金股", ""⟩

/-- The merge-and-rank operation exactly as the spec (§3, §4) and claims
C1/C4 word it: identity key `code` if non-empty else `name`, first-seen wins,
stable sort by `(priority ascending, score descending)`, truncate to `cap`. -/
def specDedupAndRank (cap : ℕ) (stocks : List Stock) : List Stock :=
  (List.insertionSort overviewSortLe (dedupByKey identKey stocks [])).take cap

/-- A mapped mainline whose leader is set, with no constituents needed. -/
def mainlineC2 : Mainline :=
  ⟨"人工智能", "GN123", "人工智能概念", "concept", 80, "科大讯飞", 5, true⟩

/-- A constituent environment returning no constituents. -/
def envC2 : String → List Constituent := fun _ => []

/-- A snapshot row whose name contains `ST` but which passes every numeric
threshold of the technical filter: cap 100 (in 1e8 units), change 10%,
volume ratio 3, turnover 10%. -/
def stRowCex : Row := ⟨"ST优品", "000001", 10, 3, 10, 10000000000⟩

/-- The same numbers with an ST-free name. -/
def passRow : Row := ⟨"优品科技", "000002", 10, 3, 10, 10000000000⟩

/-- Three code-column tables with one duplicate code. -/
def tablesW : List (List String) := [["600519", "000001", "600519"], [], ["300750"]]

/-! Section: Lemmas about the deduplication stage -/

/-- Predicate: `s` is the first record of `l` carrying its key. -/
def firstWithKey (k : Stock → String) (l : List Stock) (s : Stock) : Prop :=
  ∃ pre post, l = pre ++ s :: post ∧ ∀ t ∈ pre, k t ≠ k s

theorem dedupByKey_key_props (k : Stock → String) :
    ∀ (l : List Stock) (seen : List String), ∀ s ∈ dedupByKey k l seen,
      (k s ∉ seen ∧ k s ≠ "") ∧ s ∈ l
  | [], _ => by simp [dedupByKey]
  | x :: rest, seen => by
    intro s hs
    unfold dedupByKey at hs
    by_cases hx : k x ≠ "" ∧ k x ∉ seen
    · rw [if_pos hx] at hs
      rcases List.mem_cons.mp hs with rfl | hs
      · exact ⟨⟨hx.2, hx.1⟩, List.mem_cons_self _ _⟩
      · obtain ⟨⟨hnotin, hne⟩, hmem⟩ := dedupByKey_key_props k rest (k x :: seen) s hs
        exact ⟨⟨fun h => hnotin (List.mem_cons_of_mem _ h), hne⟩, List.mem_cons_of_mem _ hmem⟩
    · rw [if_neg hx] at hs
      obtain ⟨⟨hnotin, hne⟩, hmem⟩ := dedupByKey_key_props k rest seen s hs
      exact ⟨⟨hnotin, hne⟩, List.mem_cons_of_mem _ hmem⟩

theorem dedupByKey_map_nodup (k : Stock → String) :
    ∀ (l : List Stock) (seen : List String), ((dedupByKey k l seen).map k).Nodup
  | [], _ => by simp [dedupByKey]
  | x :: rest, seen => by
    unfold dedupByKey
    by_cases hx : k x ≠ "" ∧ k x ∉ seen
    · rw [if_pos hx]
      simp only [List.map_cons, List.nodup_cons]
      refine ⟨?_, dedupByKey_map_nodup k rest (k x :: seen)⟩
      intro hmem
      obtain ⟨s, hs, hks⟩ := List.mem_map.mp hmem
      exact ((dedupByKey_key_props k rest (k x :: seen) s hs).1.1
        (hks ▸ List.mem_cons_self _ _))
    · rw [if_neg hx]
      exact dedupByKey_map_nodup k rest seen

theorem dedupByKey_eq_self (k : Stock → String) :
    ∀ (l : List Stock) (seen : List String),
      (∀ s ∈ l, k s ≠ "" ∧ k s ∉ seen) → (l.map k).Nodup → dedupByKey k l seen = l
  | [], _, _, _ => rfl
  | x :: rest, seen, hfresh, hnodup => by
    have hx := hfresh x (List.mem_cons_self _ _)
    have hn : (∀ y ∈ rest, k y ≠ k x) ∧ (rest.map k).Nodup := by
      simpa using hnodup
    unfold dedupByKey
    rw [if_pos hx]
    congr 1
    apply dedupByKey_eq_self k rest (k x :: seen)
    · intro s hs
      refine ⟨(hfresh s (List.mem_cons_of_mem _ hs)).1, ?_⟩
      intro hmem
      rcases List.mem_cons.mp hmem with heq | hseen
      · exact hn.1 s hs heq
      · exact (hfresh s (List.mem_cons_of_mem _ hs)).2 hseen
    · exact hn.2

theorem mem_dedupByKey (k : Stock → String) (s : Stock) :
    ∀ (l : List Stock) (seen : List String),
      s ∈ dedupByKey k l seen ↔ k s ≠ "" ∧ k s ∉ seen ∧ firstWithKey k l s
  | [], seen => by
    simp [dedupByKey, firstWithKey]
  | x :: rest, seen => by
    unfold dedupByKey
    by_cases hx : k x ≠ "" ∧ k x ∉ seen
    · rw [if_pos hx]
      constructor
      · intro hs
        rcases List.mem_cons.mp hs with rfl | hs
        · exact ⟨hx.1, hx.2, [], rest, rfl, by simp⟩
        · obtain ⟨hne, hnotin, pre, post, hsplit, hfresh⟩ :=
            (mem_dedupByKey k s rest (k x :: seen)).mp hs
          have hxs : k x ≠ k s := fun h => hnotin (h ▸ List.mem_cons_self _ _)
          refine ⟨hne, fun hh => hnotin (List.mem_cons_of_mem _ hh),
            x :: pre, post, by rw [List.cons_append, ← hsplit], ?_⟩
          intro t ht
          rcases List.mem_cons.mp ht with rfl | ht
          · exact hxs
          · exact hfresh t ht
      · rintro ⟨hne, hnotin, pre, post, hsplit, hfresh⟩
        cases pre with
        | nil =>
          simp only [List.nil_append] at hsplit
          injection hsplit with h1 h2
          subst h1
          exact List.mem_cons_self _ _
        | cons y pre2 =>
          simp only [List.cons_append] at hsplit
          injection hsplit with h1 h2
          subst h1
          have hxs : k x ≠ k s := hfresh x (List.mem_cons_self _ _)
          apply List.mem_cons_of_mem
          apply (mem_dedupByKey k s rest (k x :: seen)).mpr
          refine ⟨hne, ?_, pre2, post, h2, fun t ht => hfresh t (List.mem_cons_of_mem _ ht)⟩
          intro hh
          rcases List.mem_cons.mp hh with hh | hh
          · exact hxs hh.symm
          · exact hnotin hh
    · rw [if_neg hx]
      have hxalt : k x = "" ∨ k x ∈ seen := by
        rcases not_and_or.mp hx with h | h
        · exact Or.inl (not_not.mp h)
        · exact Or.inr (not_not.mp h)
      constructor
      · intro hs
        obtain ⟨hne, hnotin, pre, post, hsplit, hfresh⟩ :=
          (mem_dedupByKey k s rest seen).mp hs
        have hxs : k x ≠ k s := by
          intro h
          rcases hxalt with hh | hh
          · exact hne (h ▸ hh)
          · exact hnotin (h ▸ hh)
        refine ⟨hne, hnotin, x :: pre, post, by rw [List.cons_append, ← hsplit], ?_⟩
        intro t ht
        rcases List.mem_cons.mp ht with rfl | ht
        · exact hxs
        · exact hfresh t ht
      · rintro ⟨hne, hnotin, pre, post, hsplit, hfresh⟩
        cases pre with
        | nil =>
          simp only [List.nil_append] at hsplit
          injection hsplit with h1 h2
          subst h1
          exact absurd ⟨hne, hnotin⟩ hx
        | cons y pre2 =>
          simp only [List.cons_append] at hsplit
          injection hsplit with h1 h2
          subst h1
          apply (mem_dedupByKey k s rest seen).mpr
          exact ⟨hne, hnotin, pre2, post, h2, fun t ht => hfresh t (List.mem_cons_of_mem _ ht)⟩

/-! Section: Lemmas about the dedup–sort–truncate pipeline -/

theorem pipeline_mem (k : Stock → String) (r : Stock → Stock → Prop) [DecidableRel r]
    (cap : ℕ) (l : List Stock) :
    ∀ s ∈ (List.insertionSort r (dedupByKey k l [])).take cap, k s ≠ "" ∧ s ∈ l := by
  intro s hs
  have h1 : s ∈ List.insertionSort r (dedupByKey k l []) := List.take_subset _ _ hs
  have h2 : s ∈ dedupByKey k l [] := (List.mem_insertionSort r).mp h1
  obtain ⟨⟨_, hne⟩, hmem⟩ := dedupByKey_key_props k l [] s h2
  exact ⟨hne, hmem⟩

theorem pipeline_map_nodup (k : Stock → String) (r : Stock → Stock → Prop) [DecidableRel r]
    (cap : ℕ) (l : List Stock) :
    (((List.insertionSort r (dedupByKey k l [])).take cap).map k).Nodup := by
  have h1 : ((dedupByKey k l []).map k).Nodup := dedupByKey_map_nodup k l []
  have h2 : (((List.insertionSort r (dedupByKey k l []))).map k).Nodup :=
    (((List.perm_insertionSort r (dedupByKey k l [])).map k).nodup_iff).mpr h1
  rw [List.map_take]
  exact h2.sublist (List.take_sublist _ _)

theorem pipeline_sorted (k : Stock → String) (r : Stock → Stock → Prop) [DecidableRel r]
    [IsTotal Stock r] [IsTrans Stock r] (cap : ℕ) (l : List Stock) :
    List.Sorted r ((List.insertionSort r (dedupByKey k l [])).take cap) :=
  List.Pairwise.sublist (List.take_sublist _ _) (List.sorted_insertionSort r _)

theorem pipeline_length (k : Stock → String) (r : Stock → Stock → Prop) [DecidableRel r]
    (cap : ℕ) (l : List Stock) :
    ((List.insertionSort r (dedupByKey k l [])).take cap).length ≤ cap := by
  simp [List.length_take]

theorem pipeline_idem (k : Stock → String) (r : Stock → Stock → Prop) [DecidableRel r]
    [IsTotal Stock r] [IsTrans Stock r] (cap : ℕ) (l : List Stock) :
    (List.insertionSort r
        (dedupByKey k ((List.insertionSort r (dedupByKey k l [])).take cap) [])).take cap
      = (List.insertionSort r (dedupByKey k l [])).take cap := by
  have hdedup : dedupByKey k ((List.insertionSort r (dedupByKey k l [])).take cap) []
      = (List.insertionSort r (dedupByKey k l [])).take cap := by
    apply dedupByKey_eq_self
    · intro s hs
      exact ⟨(pipeline_mem k r cap l s hs).1, by simp⟩
    · exact pipeline_map_nodup k r cap l
  rw [hdedup, (pipeline_sorted k r cap l).insertionSort_eq]
  exact List.take_of_length_le (pipeline_length k r cap l)

/-! Section: Lemmas about the technical breakout filter -/

theorem techScore_signal {c v t : ℚ} (h : 25 ≤ techScore c v t) : 5 ≤ c ∨ 2 ≤ v := by
  unfold techScore at h
  split_ifs at h <;>
    first
      | (left; linarith)
      | (right; linarith)

theorem techTags_nonempty {c v t : ℚ} (h : 5 ≤ c ∨ 2 ≤ v) :
    techSignalTags c v t ≠ [] := by
  unfold techSignalTags
  rcases h with h | h <;> split_ifs <;> simp_all

theorem techAccept_isSome_iff (period : String) (r : Row) :
    (techAccept period r).isSome = true ↔
      (r.name ≠ "" ∧ r.code ≠ "" ∧ hasST r.name = false ∧
        30 ≤ r.total_cap / 100000000 ∧ r.total_cap / 100000000 ≤ 5000 ∧
        (5 ≤ r.change ∨ 2 ≤ r.vr) ∧ 25 ≤ techScore r.change r.vr r.turnover) := by
  unfold techAccept
  dsimp only
  split_ifs with h1 h2 h3 h4 h5
  · simp only [Option.isSome_none, Bool.false_eq_true, false_iff]
    rintro ⟨hn, hc, -⟩
    rcases h1 with h | h
    · exact hn h
    · exact hc h
  · simp only [Option.isSome_none, Bool.false_eq_true, false_iff]
    rintro ⟨-, -, hst, -⟩
    rw [h2] at hst
    cases hst
  · simp only [Option.isSome_none, Bool.false_eq_true, false_iff]
    rintro ⟨-, -, -, hlo, hhi, -⟩
    rcases h3 with h | h <;> linarith
  · simp only [Option.isSome_some, true_iff]
    have hn := not_or.mp h1
    have hcap := not_or.mp h3
    exact ⟨hn.1, hn.2, by simpa using h2, by linarith [not_lt.mp hcap.1],
      by linarith [not_lt.mp hcap.2], techScore_signal h4.2, h4.2⟩
  · simp only [Option.isSome_some, true_iff]
    have hn := not_or.mp h1
    have hcap := not_or.mp h3
    exact ⟨hn.1, hn.2, by simpa using h2, by linarith [not_lt.mp hcap.1],
      by linarith [not_lt.mp hcap.2], techScore_signal h4.2, h4.2⟩
  · simp only [Option.isSome_none, Bool.false_eq_true, false_iff]
    rintro ⟨-, -, -, -, -, hsig, hscore⟩
    exact h4 ⟨techTags_nonempty hsig, hscore⟩

theorem techAccept_some_props {period : String} {r : Row} {s : Stock} {n : ℕ}
    (h : techAccept period r = some (s, n)) :
    hasST s.name = false ∧ s.name ≠ "" ∧ s.code ≠ "" := by
  unfold techAccept at h
  dsimp only at h
  split_ifs at h with h1 h2 h3 h4 h5
  · simp only [Option.some.injEq, Prod.mk.injEq] at h
    obtain ⟨hs, -⟩ := h
    subst hs
    have hn := not_or.mp h1
    exact ⟨by simpa using h2, hn.1, hn.2⟩
  · simp only [Option.some.injEq, Prod.mk.injEq] at h
    obtain ⟨hs, -⟩ := h
    subst hs
    have hn := not_or.mp h1
    exact ⟨by simpa using h2, hn.1, hn.2⟩

theorem techAccept_none_of_skip {period : String} {r : Row}
    (h : hasST r.name = true ∨ r.name = "" ∨ r.code = "") :
    techAccept period r = none := by
  unfold techAccept
  dsimp only
  rcases h with h | h | h
  · rcases em (r.name = "" ∨ r.code = "") with he | he
    · rw [if_pos he]
    · rw [if_neg he, if_pos h]
  · rw [if_pos (Or.inl h)]
  · rw [if_pos (Or.inr h)]

/-! Section: Lemmas about string deduplication -/

theorem dedupStr_props : ∀ (l seen : List String),
    (dedupStr l seen).Nodup ∧ ∀ c ∈ dedupStr l seen, c ∉ seen ∧ c ∈ l
  | [], _ => by simp [dedupStr]
  | c :: rest, seen => by
    unfold dedupStr
    by_cases hc : c ∈ seen
    · rw [if_pos hc]
      obtain ⟨hnd, hmem⟩ := dedupStr_props rest seen
      exact ⟨hnd, fun d hd => ⟨(hmem d hd).1, List.mem_cons_of_mem _ (hmem d hd).2⟩⟩
    · rw [if_neg hc]
      obtain ⟨hnd, hmem⟩ := dedupStr_props rest (c :: seen)
      refine ⟨List.nodup_cons.mpr ⟨?_, hnd⟩, ?_⟩
      · intro hcc
        exact (hmem c hcc).1 (List.mem_cons_self _ _)
      · intro d hd
        rcases List.mem_cons.mp hd with rfl | hd
        · exact ⟨hc, List.mem_cons_self _ _⟩
        · exact ⟨fun hh => (hmem d hd).1 (List.mem_cons_of_mem _ hh),
            List.mem_cons_of_mem _ (hmem d hd).2⟩

theorem dedupStr_nil_iff : ∀ l : List String, dedupStr l [] = [] ↔ l = []
  | [] => by simp [dedupStr]
  | c :: rest => by
    unfold dedupStr
    rw [if_neg (List.not_mem_nil c)]
    simp

/-! Section: The claims -/

/-- C1 (counterexample): the claim says every deduplication the panel
performs, including `MainlineScanWorker._deduplicate_and_sort`, keys records
by `code` if non-empty else `name`.  But `_deduplicate_and_sort` keys by
`code` alone: a record with empty `code` and non-empty `name` (identity
`龙头甲` per the claim) is dropped outright, while the claimed behaviour
(`specDedupAndRank`) keeps it. -/
theorem claim_C1_counterexample :
    deduplicate_and_sort [ghostLeader] = [] ∧
    identKey ghostLeader = "龙头甲" ∧
    specDedupAndRank 30 [ghostLeader] = [ghostLeader] :=
  ⟨rfl, rfl, rfl⟩

/-- C1 (amended): in the overview merge the deduplication identity is `code`
if non-empty else `name` with first-seen-wins; in
`MainlineScanWorker._deduplicate_and_sort` the identity is the `code` alone,
and records with empty `code` are dropped rather than keyed by `name`.
Membership in either deduplicated list is exactly being the first record of
the input carrying one's (non-empty) key. -/
theorem claim_C1_dedup_identity (l : List Stock) (s : Stock) :
    (s ∈ overviewDedup l ↔ identKey s ≠ "" ∧ firstWithKey identKey l s) ∧
    (s ∈ dedupByKey (fun t => t.code) l [] ↔
      s.code ≠ "" ∧ firstWithKey (fun t => t.code) l s) := by
  constructor
  · unfold overviewDedup
    simpa using mem_dedupByKey identKey s l []
  · simpa using mem_dedupByKey (fun t => t.code) s l []

/-- C1 (witness): concrete instances of both characterizations. -/
theorem claim_C1_witness :
    namedOnly ∈ overviewDedup [namedOnly] ∧
    stockA ∈ dedupByKey (fun t => t.code) [stockA] [] :=
  ⟨(claim_C1_dedup_identity [namedOnly] namedOnly).1.mpr
      ⟨by decide, [], [], rfl, by simp⟩,
   (claim_C1_dedup_identity [stockA] stockA).2.mpr
      ⟨by decide, [], [], rfl, by simp⟩⟩

/-- C2 (code bug): the module docstring and the comment `添加龙头股（必选）`
state that a theme's leader stock is always included, and `run` does append
the leader record to `all_stocks`; but `_create_leader_stock` gives it an
empty `code`, and `_deduplicate_and_sort` keeps only records with non-empty
`code`, so the leader never reaches the emitted output.  On a single mapped
mainline with leader `科大讯飞` and no constituents, the collected list is
exactly the leader record, yet the scan emits the empty list. -/
theorem claim_C2_leader_dropped :
    mainlineCollect "medium" 10 5 envC2 [mainlineC2]
        = [create_leader_stock "medium" "科大讯飞" "人工智能" 80 5] ∧
    mainlineScan "medium" 10 5 envC2 [mainlineC2] = [] ∧
    mainlineRunSafe (Except.ok ⟨true, [mainlineC2], 10, 5, "medium", envC2⟩)
        = ([], "MongoDB主线 + JQData成分股") :=
  ⟨rfl, rfl, rfl⟩

/-- C3 (counterexample): the claim's "accepted iff" omits the skip of rows
with `ST` in the name (and empty name/code).  This row satisfies every
condition of the claim — cap 100 within [30, 5000], momentum and volume
signals, score 75 ≥ 25 — yet the scan rejects it. -/
theorem claim_C3_counterexample :
    techScan "short" [stRowCex] = [] ∧
    30 ≤ stRowCex.total_cap / 100000000 ∧ stRowCex.total_cap / 100000000 ≤ 5000 ∧
    5 ≤ stRowCex.change ∧ 2 ≤ stRowCex.vr ∧
    25 ≤ techScore stRowCex.change stRowCex.vr stRowCex.turnover := by
  refine ⟨rfl, by norm_num [stRowCex], by norm_num [stRowCex], by norm_num [stRowCex],
    by norm_num [stRowCex], by decide⟩

/-- C3 (amended): provided its name and code are non-empty and the name does
not contain `ST`, a snapshot row is accepted iff its market cap (in 1e8
units) lies in [30, 5000], it has a momentum (change ≥ 5) or volume
(volume ratio ≥ 2) signal, and its additively accumulated score is at least
25; the accepted rows are sorted descending by score and capped at 20. -/
theorem claim_C3_tech_filter (period : String) (r : Row) (rows : List Row) :
    ((techAccept period r).isSome = true ↔
      (r.name ≠ "" ∧ r.code ≠ "" ∧ hasST r.name = false ∧
        30 ≤ r.total_cap / 100000000 ∧ r.total_cap / 100000000 ≤ 5000 ∧
        (5 ≤ r.change ∨ 2 ≤ r.vr) ∧ 25 ≤ techScore r.change r.vr r.turnover)) ∧
    List.Sorted techScoreGe (techRanked period rows) ∧
    (techScan period rows).length ≤ 20 := by
  refine ⟨techAccept_isSome_iff period r, ?_, ?_⟩
  · exact List.Pairwise.sublist (List.take_sublist _ _) (List.sorted_insertionSort _ _)
  · simp only [techScan, techRanked, List.length_map, List.length_take]
    exact min_le_left _ _

/-- C3 (witness): a concrete passing row is accepted. -/
theorem claim_C3_witness : (techAccept "short" passRow).isSome = true :=
  (claim_C3_tech_filter "short" passRow []).1.mpr
    ⟨by decide, by decide, by decide, by norm_num [passRow], by norm_num [passRow],
     Or.inl (by norm_num [passRow]), by decide⟩

/-- C4 (counterexample): `_deduplicate_and_sort` does not stable-sort by the
claimed pair `(priority, -score)` — it adds a `change_pct`-descending
tiebreak.  Two records tied on priority and score but with ascending changes
are reordered, where the claimed stable sort (`specDedupAndRank`) keeps the
input order. -/
theorem claim_C4_counterexample :
    deduplicate_and_sort [stockA, stockB] = [stockB, stockA] ∧
    specDedupAndRank 30 [stockA, stockB] = [stockA, stockB] ∧
    deduplicate_and_sort [stockA, stockB] ≠ specDedupAndRank 30 [stockA, stockB] := by
  refine ⟨rfl, rfl, by decide⟩

/-- C4 (amended): the merged output of `_deduplicate_and_sort` is sorted by
`(priority asc, mainline_score desc, change_pct desc)`, holds at most 30
records, all drawn from the input (deduplicated by `code` per C1); the
overview merge output is sorted by `(priority asc, mainline_score desc)`,
holds at most 50 records, all drawn from the input (deduplicated by
code-else-name per C1). -/
theorem claim_C4_merge_rank (l : List Stock) :
    List.Sorted mainlineSortLe (deduplicate_and_sort l) ∧
    (deduplicate_and_sort l).length ≤ 30 ∧
    (∀ s ∈ deduplicate_and_sort l, s ∈ l) ∧
    List.Sorted overviewSortLe (overviewMerge l) ∧
    (overviewMerge l).length ≤ 50 ∧
    (∀ s ∈ overviewMerge l, s ∈ l) := by
  unfold deduplicate_and_sort overviewMerge overviewDedup
  exact ⟨pipeline_sorted _ mainlineSortLe 30 l, pipeline_length _ mainlineSortLe 30 l,
    fun s hs => (pipeline_mem _ mainlineSortLe 30 l s hs).2,
    pipeline_sorted identKey overviewSortLe 50 l, pipeline_length identKey overviewSortLe 50 l,
    fun s hs => (pipeline_mem identKey overviewSortLe 50 l s hs).2⟩

/-- C4 (witness): the postcondition at a concrete merged list. -/
theorem claim_C4_witness :
    List.Sorted mainlineSortLe (deduplicate_and_sort [stockA, stockB]) ∧
    (deduplicate_and_sort [stockA, stockB]).length ≤ 30 :=
  ⟨(claim_C4_merge_rank [stockA, stockB]).1, (claim_C4_merge_rank [stockA, stockB]).2.1⟩

/-- C5 (counterexample): the claim says no worker ever propagates an error to
a caller for programmatic handling, citing `FactorFilterWorker.run` among its
sources; but that worker reports any failure of the external call through its
`error` signal — which `FactorFilterTab._on_error` handles programmatically —
and substitutes no mock or empty dataset. -/
theorem claim_C5_counterexample :
    factorFilterRun (Except.error "连接超时") = FactorEmission.errorSig "连接超时" ∧
    factorFilterRun (Except.error "连接超时") ≠ FactorEmission.finished [] :=
  ⟨rfl, by decide⟩

/-- C5 (amended): each stock-pool panel worker (mainline, technical, ETF,
external-parse) masks every failure of its external data call by emitting a
hard-coded mock dataset and never signals an error; `FactorFilterWorker`
instead catches the failure and reports it to its caller through the `error`
signal, emitting no substitute data. -/
theorem claim_C5_error_masking (period e : String) :
    mainlineRunSafe (Except.error e) = (get_mock_mainline_stocks, "模拟数据（异常）") ∧
    techRunSafe period (Except.error e) = (get_mock_tech_stocks, "模拟数据") ∧
    etfRunSafe (Except.error e) = (get_mock_etfs, "模拟数据") ∧
    externalRunSafe (Except.error e) = (get_mock_external_stocks, "示例数据") ∧
    factorFilterRun (Except.error e) = FactorEmission.errorSig e :=
  ⟨rfl, rfl, rfl, rfl, rfl⟩

/-- C6: in a full overview scan at most one worker runs at a time (the state
carries at most one running phase), a scan is started only inside the
completion handler of the currently running worker — and then it is exactly
the designated next phase — and the four completions drive the chain through
the fixed order mainline, tech, ETF, external. -/
theorem claim_C6_sequential_chain (st : OverviewState) (p : ScanPhase) :
    doScanAll.started = [ScanPhase.mainline] ∧
    ((onFinished st p).started = st.started ∨
      ∃ q, nextScan p = some q ∧ (onFinished st p).running = some q ∧
        (onFinished st p).started = st.started ++ [q]) ∧
    runEvents doScanAll [ScanPhase.mainline, ScanPhase.tech, ScanPhase.etf, ScanPhase.external]
      = ⟨none, [ScanPhase.mainline, ScanPhase.tech, ScanPhase.etf, ScanPhase.external]⟩ := by
  refine ⟨rfl, ?_, by decide⟩
  unfold onFinished
  by_cases hr : st.running = some p
  · rw [if_pos hr]
    cases hq : nextScan p with
    | none => exact Or.inl rfl
    | some q => exact Or.inr ⟨q, rfl, rfl, rfl⟩
  · rw [if_neg hr]
    exact Or.inl rfl

/-- C7: code generation writes no file exactly when the three tables hold no
codes; when it writes, the embedded literal list is duplicate-free, holds at
most 20 entries, and every entry is a code collected from the tables. -/
theorem claim_C7_generate_code (tables : List (List String)) :
    (generateCode tables = none ↔ tables.flatten = []) ∧
    ∀ l, generateCode tables = some l →
      l.Nodup ∧ l.length ≤ 20 ∧ ∀ c ∈ l, c ∈ tables.flatten := by
  constructor
  · unfold generateCode
    dsimp only
    constructor
    · intro h
      by_cases he : (dedupStr tables.flatten []).isEmpty
      · exact (dedupStr_nil_iff tables.flatten).mp (List.isEmpty_iff.mp he)
      · rw [if_neg he] at h
        cases h
    · intro h
      rw [if_pos (List.isEmpty_iff.mpr ((dedupStr_nil_iff tables.flatten).mpr h))]
  · intro l h
    unfold generateCode at h
    dsimp only at h
    by_cases he : (dedupStr tables.flatten []).isEmpty
    · rw [if_pos he] at h
      cases h
    · rw [if_neg he] at h
      injection h with h
      subst h
      obtain ⟨hnd, hmem⟩ := dedupStr_props tables.flatten []
      refine ⟨hnd.sublist (List.take_sublist _ _), by simp [List.length_take], ?_⟩
      intro c hc
      exact (hmem c (List.take_subset _ _ hc)).2

/-- C7 (witness): the generated list for three concrete tables. -/
theorem claim_C7_witness :
    (["600519", "000001", "300750"] : List String).Nodup ∧
    (["600519", "000001", "300750"] : List String).length ≤ 20 :=
  ⟨((claim_C7_generate_code tablesW).2 ["600519", "000001", "300750"] (by decide)).1,
   ((claim_C7_generate_code tablesW).2 ["600519", "000001", "300750"] (by decide)).2.1⟩

/-- C8: both deduplicate-and-sort operations are deterministic functions of
their input list (two runs on the same list agree), and moreover idempotent:
re-running on the produced output returns it unchanged. -/
theorem claim_C8_deterministic (l : List Stock) :
    deduplicate_and_sort l = deduplicate_and_sort l ∧
    overviewMerge l = overviewMerge l ∧
    deduplicate_and_sort (deduplicate_and_sort l) = deduplicate_and_sort l ∧
    overviewMerge (overviewMerge l) = overviewMerge l := by
  refine ⟨rfl, rfl, ?_, ?_⟩
  · unfold deduplicate_and_sort
    exact pipeline_idem _ mainlineSortLe 30 l
  · unfold overviewMerge overviewDedup
    exact pipeline_idem identKey overviewSortLe 50 l

/-- C9: no two records of a deduplicated output share the same identity key
(`code` if non-empty, else `name`) — for `_deduplicate_and_sort` and for the
overview merge. -/
theorem claim_C9_no_duplicate_identity (l : List Stock) :
    ((deduplicate_and_sort l).map identKey).Nodup ∧
    ((overviewMerge l).map identKey).Nodup := by
  constructor
  · have hcode : ((deduplicate_and_sort l).map (fun s => s.code)).Nodup := by
      unfold deduplicate_and_sort
      exact pipeline_map_nodup _ mainlineSortLe 30 l
    have heq : (deduplicate_and_sort l).map identKey
        = (deduplicate_and_sort l).map (fun s => s.code) := by
      apply List.map_congr_left
      intro s hs
      have hne : s.code ≠ "" := by
        unfold deduplicate_and_sort at hs
        exact (pipeline_mem _ mainlineSortLe 30 l s hs).1
      simp [identKey, hne]
    rw [heq]
    exact hcode
  · unfold overviewMerge overviewDedup
    exact pipeline_map_nodup identKey overviewSortLe 50 l

/-- C10: any snapshot row whose name contains `ST`, or whose name or code is
empty, is rejected before any threshold is read; consequently every stock in
the scan's output has a non-empty, ST-free name and a non-empty code. -/
theorem claim_C10_st_exclusion (period : String) (r : Row) (rows : List Row) :
    ((hasST r.name = true ∨ r.name = "" ∨ r.code = "") → techAccept period r = none) ∧
    (∀ s ∈ techScan period rows, hasST s.name = false ∧ s.name ≠ "" ∧ s.code ≠ "") := by
  refine ⟨techAccept_none_of_skip, ?_⟩
  intro s hs
  unfold techScan at hs
  obtain ⟨⟨s2, n⟩, hp, hfst⟩ := List.mem_map.mp hs
  have hp2 : (s2, n) ∈ List.insertionSort techScoreGe (rows.filterMap (techAccept period)) := by
    unfold techRanked at hp
    exact List.take_subset _ _ hp
  have hp3 : (s2, n) ∈ rows.filterMap (techAccept period) :=
    (List.mem_insertionSort _).mp hp2
  obtain ⟨r2, -, hacc⟩ := List.mem_filterMap.mp hp3
  have hs2 : s2 = s := hfst
  subst hs2
  exact techAccept_some_props hacc

/-- C10 (witness): the concrete ST row is rejected. -/
theorem claim_C10_witness : techAccept "short" stRowCex = none :=
  (claim_C10_st_exclusion "short" stRowCex []).1 (Or.inl (by decide))

end TRQuant
